import Mathlib

/-!
Shallow embedding of the MyColors color-swatch store (TypeScript sources under
`src/`): the JSON data model, the structural validity predicates from
`src/types` (`isValidRGB`, `isValidColorEntry`), the persistent store
(`loadColors` / `saveColors` / `addColor` / `deleteColor` from
`src/services/colorService.ts` and `src/services/colorService/`), the color
formatting utilities (`src/utils/colorFormatUtils.ts`), the undo/redo manager
(`src/utils/undoRedoUtils.ts`, part_011) and the backup manager
(`src/utils/backupUtils.ts`).

JavaScript numbers are modelled as rationals (`ℚ`); all operations the claims
exercise (comparisons, `Math.round`, `Math.min`, `Math.max`, integer parsing)
are exact on the rationals involved.  JavaScript strings are modelled as
`List Char` so that every string operation the code performs (trim,
toLowerCase, length, indexing) is a structural function.
-/

namespace MyColors

/-- JavaScript strings, as their character sequences. -/
abbrev JsString := List Char

/-- `Math.round(v)`, which for finite numbers is `⌊v + 1/2⌋`, written over the
numerator/denominator so that it evaluates: `v + 1/2 = (2 num + den)/(2 den)`.
`jsRound_eq_floor` below recovers the textbook form. -/
def jsRound (q : ℚ) : ℤ :=
  ⌊Rat.divInt (2 * q.num + q.den) (2 * q.den)⌋

/-- `jsRound` is floor of the input plus one half. -/
theorem jsRound_eq_floor (q : ℚ) : jsRound q = ⌊q + 1/2⌋ := by
  have hden : ((q.den : ℚ)) ≠ 0 := Nat.cast_ne_zero.mpr q.den_nz
  have h : q + 1/2 = Rat.divInt (2 * q.num + q.den) (2 * q.den) := by
    rw [Rat.divInt_eq_div]
    push_cast
    conv_lhs => rw [← Rat.num_div_den q]
    field_simp
    ring
  rw [jsRound, ← h]

/-- `Math.max(0, Math.min(255, Math.round(value)))`: the clamping performed by
`sanitizeRgbValues`, `addColor`, `editColor` and `toHex`. -/
def clampChannel (q : ℚ) : ℤ :=
  max 0 (min 255 (jsRound q))

/-- Parsed JSON values (the result of `JSON.parse`).  Object field lists are
the already-deduplicated key/value pairs produced by `JSON.parse`, in key
order. -/
inductive Json where
  | null : Json
  | bool (b : Bool) : Json
  | num (q : ℚ) : Json
  | str (s : JsString) : Json
  | arr (items : List Json) : Json
  | obj (fields : List (String × Json)) : Json

/-- Field lookup in a JSON object field list (JS property access `record.k`). -/
def lookupField : List (String × Json) → String → Option Json
  | [], _ => none
  | (k, v) :: rest, key => if k = key then some v else lookupField rest key

/-- Property access on a JSON value: `some v` when the value is an object with
the field, `none` (JS `undefined`) otherwise. -/
def getField (j : Json) (key : String) : Option Json :=
  match j with
  | .obj fields => lookupField fields key
  | _ => none

/-- Replace the value of field `key` in a field list, keeping its position
(the behaviour of the JS spread `{ ...color, key: v }` when `key` is already
present); append it when absent. -/
def setFields : List (String × Json) → String → Json → List (String × Json)
  | [], key, v => [(key, v)]
  | (k, w) :: rest, key, v =>
      if k = key then (key, v) :: rest else (k, w) :: setFields rest key v

/-- The JS spread `{ ...color, key: v }`.  For the non-object values this is
applied to in `saveColors` the branch is unreachable (the validity filter has
already passed only objects), so the fallback simply builds a fresh object. -/
def setField (j : Json) (key : String) (v : Json) : Json :=
  match j with
  | .obj fields => .obj (setFields fields key v)
  | _ => .obj [(key, v)]

/-- The check `"k" in record && typeof record.k === "number" && record.k >= 0
&& record.k <= 255` performed by `isValidRGB` on each channel field. -/
def channelCheck (o : Option Json) : Bool :=
  match o with
  | some (.num q) => decide (0 ≤ q) && decide (q ≤ 255)
  | _ => false

/-- The check `"index" in record && typeof record.index === "number" &&
record.index >= 0` performed by `isValidColorEntry`. -/
def nonnegNumCheck (o : Option Json) : Bool :=
  match o with
  | some (.num q) => decide (0 ≤ q)
  | _ => false

/-- The check `"name" in record && typeof record.name === "string" &&
record.name.length > 0` performed by `isValidColorEntry`. -/
def nonemptyStrCheck (o : Option Json) : Bool :=
  match o with
  | some (.str s) => decide (0 < s.length)
  | _ => false

/-- `isValidRGB` from `src/types` (part_004): the value is a non-null object
whose `r`, `g`, `b` fields exist, are numbers, and lie in `[0, 255]`. -/
def isValidRGB (j : Json) : Bool :=
  match j with
  | .obj fields =>
      channelCheck (lookupField fields "r") &&
      channelCheck (lookupField fields "g") &&
      channelCheck (lookupField fields "b")
  | _ => false

/-- The check `"rgb" in record && isValidRGB(record.rgb)` performed by
`isValidColorEntry`. -/
def rgbFieldCheck (o : Option Json) : Bool :=
  match o with
  | some rgbv => isValidRGB rgbv
  | _ => false

/-- `isValidColorEntry` from `src/types` (part_004): a non-null object with a
numeric `index ≥ 0`, a string `name` of (untrimmed) length `> 0`, and a valid
`rgb` object.  (JS arrays also have `typeof === "object"` but lack the three
named properties, so mapping every non-object constructor to `false` is
equivalent to the source's check order.) -/
def isValidColorEntry (j : Json) : Bool :=
  match j with
  | .obj fields =>
      nonnegNumCheck (lookupField fields "index") &&
      nonemptyStrCheck (lookupField fields "name") &&
      rgbFieldCheck (lookupField fields "rgb")
  | _ => false

/-- `MAX_COLORS` from `src/constants/appConstants`. -/
def MAX_COLORS : ℕ := 15

/-- Typed RGB triple (the `RGB` interface); JS numbers as rationals. -/
structure RGB where
  r : ℚ
  g : ℚ
  b : ℚ
deriving DecidableEq

/-- Typed color entry (the `ColorEntry` interface). -/
structure ColorEntry where
  index : ℚ
  name : JsString
  rgb : RGB
deriving DecidableEq

/-- The canonical JSON serialization of a typed color entry. -/
def toJson (c : ColorEntry) : Json :=
  .obj [("index", .num c.index), ("name", .str c.name),
        ("rgb", .obj [("r", .num c.rgb.r), ("g", .num c.rgb.g), ("b", .num c.rgb.b)])]

/-- `DEFAULT_COLORS` from `src/services/colorService/defaultColors.ts`. -/
def DEFAULT_COLORS : List ColorEntry :=
  [⟨0, "Primary Red".toList, ⟨255, 90, 90⟩⟩,
   ⟨1, "Ocean Blue".toList, ⟨52, 152, 219⟩⟩,
   ⟨2, "Forest Green".toList, ⟨46, 204, 113⟩⟩,
   ⟨3, "Sunset Orange".toList, ⟨255, 165, 0⟩⟩,
   ⟨4, "Purple Accent".toList, ⟨155, 89, 182⟩⟩]

/-- The default colors as the JSON array content written to / read from disk. -/
def DEFAULT_COLORS_JSON : List Json := DEFAULT_COLORS.map toJson

/-- `validColors.map((color, index) => ({ ...color, index }))` in `saveColors`:
overwrite each entry's `index` field with its array position, counting from
`n`. -/
def reindexFrom (n : ℕ) : List Json → List Json
  | [] => []
  | c :: rest => setField c "index" (.num n) :: reindexFrom (n + 1) rest

/-- `saveColors` (`src/services/colorService.ts` lines 134-159, and the same
core in `src/services/colorService/` lines 161-196): filter to structurally
valid entries, truncate to `MAX_COLORS`, re-index by array position, write the
result to the file.  The returned list is the persisted collection; the cached
variant stores this same `reindexedColors` list in the in-process cache. -/
def saveColors (colors : List Json) : List Json :=
  reindexFrom 0 ((colors.filter isValidColorEntry).take MAX_COLORS)

/-- The state of the `colors.json` file as seen by the read path: absent,
unreadable (I/O error on `readFile`), readable but not JSON
(`JSON.parse` throws), or successfully parsed JSON. -/
inductive FileState where
  | missing : FileState
  | unreadable : FileState
  | notJson : FileState
  | json (v : Json) : FileState

/-- `ensureColorFile`: if the file does not exist, create the directory and
write the five default colors; otherwise leave the file untouched (it never
validates existing content). -/
def ensureColorFile (fs : FileState) : FileState :=
  match fs with
  | .missing => .json (.arr DEFAULT_COLORS_JSON)
  | other => other

/-- `loadColors` (`src/services/colorService.ts` lines 90-128): ensure the
file exists, read and parse it; on any I/O or parse error, or when the parsed
value is not an array, or when no structurally valid entries remain, return
the built-in defaults.  Returns the loaded collection together with the file
state after the call (the defaults are returned in memory and never overwrite
an existing file).  The function is total: no error escapes. -/
def loadColors (fs : FileState) : List Json × FileState :=
  let fs1 := ensureColorFile fs
  match fs1 with
  | .json v =>
      match v with
      | .arr items =>
          let validColors := (items.filter isValidColorEntry).take MAX_COLORS
          if validColors.isEmpty then (DEFAULT_COLORS_JSON, fs1)
          else (validColors, fs1)
      | _ => (DEFAULT_COLORS_JSON, fs1)
  | _ => (DEFAULT_COLORS_JSON, fs1)

/-! ## The typed mutation layer

`addColor` / `editColor` / `deleteColor` operate on the collection returned by
`loadColors`, reading the `index`/`name`/`rgb` properties and building new
entries.  They are embedded over the typed `ColorEntry` (the canonical fields;
`toJson_isValid` below ties the typed validity check to the JSON-level one).
Each mutation returns `.error` when the source throws, and on success an
`.ok` carrying the list the function returns together with the list
`saveColors` persists.  A thrown error aborts the call before `saveColors`,
so on the error paths no save happens. -/

/-- The typed error classes of `src/utils/errorUtils.ts` that the mutations
throw. -/
inductive ColorError where
  | duplicateColor (name : JsString) : ColorError
  | maxColorsReached (maxColors : ℕ) : ColorError
  | colorNotFound (index : ℚ) : ColorError
deriving DecidableEq

/-- `String.prototype.trim`: strip leading and trailing whitespace. -/
def jsTrim (s : JsString) : JsString :=
  ((s.dropWhile Char.isWhitespace).reverse.dropWhile Char.isWhitespace).reverse

/-- `String.prototype.toLowerCase` (ASCII case mapping, which covers every
name the repository manipulates). -/
def jsToLower (s : JsString) : JsString :=
  s.map Char.toLower

/-- `sanitizeRgbValues` from `src/validators/colorValidators.ts` lines 94-104:
clamp and round each channel into `[0, 255]`. -/
def sanitizeRgbValues (rgb : RGB) : RGB :=
  ⟨(clampChannel rgb.r : ℚ), (clampChannel rgb.g : ℚ), (clampChannel rgb.b : ℚ)⟩

/-- The structural validity check restricted to typed entries: `index ≥ 0`,
non-empty name, channels in `[0, 255]` (matches `isValidColorEntry ∘ toJson`,
see `toJson_isValid`). -/
def isValidEntry (c : ColorEntry) : Bool :=
  decide (0 ≤ c.index) && decide (0 < c.name.length) &&
    ((decide (0 ≤ c.rgb.r) && decide (c.rgb.r ≤ 255)) &&
     (decide (0 ≤ c.rgb.g) && decide (c.rgb.g ≤ 255)) &&
     (decide (0 ≤ c.rgb.b) && decide (c.rgb.b ≤ 255)))

/-- The typed validity check agrees with the JSON-level `isValidColorEntry`
on serialized entries. -/
theorem toJson_isValid (c : ColorEntry) : isValidColorEntry (toJson c) = isValidEntry c := rfl

/-- Typed re-indexing (`.map((color, index) => ({ ...color, index }))`),
counting from `n`. -/
def reindexEntriesFrom (n : ℕ) : List ColorEntry → List ColorEntry
  | [] => []
  | c :: rest => { c with index := (n : ℚ) } :: reindexEntriesFrom (n + 1) rest

/-- `saveColors` on typed entries: filter to valid entries, truncate to
`MAX_COLORS`, re-index by array position. -/
def saveEntries (colors : List ColorEntry) : List ColorEntry :=
  reindexEntriesFrom 0 ((colors.filter isValidEntry).take MAX_COLORS)

/-- `addColor` (`src/services/colorService/` lines 211-247, identical logic in
`src/services/colorService.ts` lines 165-212): duplicate-name check (trimmed,
case-insensitive), capacity check, then append the sanitized new entry with
`index = currentColors.length` and save.  `currentColors` is the loaded
collection; on success the pair is (returned list, persisted list). -/
def addColor (currentColors : List ColorEntry) (name : JsString) (rgb : RGB) :
    Except ColorError (List ColorEntry × List ColorEntry) :=
  let normalizedName := jsTrim name
  let isDuplicate := currentColors.any fun color =>
    jsToLower color.name = jsToLower normalizedName
  if isDuplicate then .error (.duplicateColor normalizedName)
  else if MAX_COLORS ≤ currentColors.length then .error (.maxColorsReached MAX_COLORS)
  else
    let newColor : ColorEntry :=
      ⟨(currentColors.length : ℚ), normalizedName, sanitizeRgbValues rgb⟩
    let updatedColors := currentColors ++ [newColor]
    .ok (updatedColors, saveEntries updatedColors)

/-- The collection on disk after an `addColor` call against the stored
collection `store`: a thrown error aborts before `saveColors`, leaving the
file as it was. -/
def addColorStore (store : List ColorEntry) (name : JsString) (rgb : RGB) :
    List ColorEntry :=
  match addColor store name rgb with
  | .ok (_, saved) => saved
  | .error _ => store

/-- `currentColors.filter((_, i) => i !== index)` in `deleteColor`: keep the
entries whose integer array position (counted from `n`) differs from the
JS number `index`. -/
def filterOutPos (index : ℚ) (n : ℕ) : List ColorEntry → List ColorEntry
  | [] => []
  | c :: rest =>
      if (n : ℚ) = index then filterOutPos index (n + 1) rest
      else c :: filterOutPos index (n + 1) rest

/-- `deleteColor` (`src/services/colorService/` lines 298-321, identical logic
in `src/services/colorService.ts` lines 272-298): bounds check
`index < 0 || index >= currentColors.length`, then remove the entry at the
matching array position, re-index, and save.  On success the pair is
(returned list, persisted list). -/
def deleteColor (currentColors : List ColorEntry) (index : ℚ) :
    Except ColorError (List ColorEntry × List ColorEntry) :=
  if index < 0 ∨ (currentColors.length : ℚ) ≤ index then
    .error (.colorNotFound index)
  else
    let updatedColors := reindexEntriesFrom 0 (filterOutPos index 0 currentColors)
    .ok (updatedColors, saveEntries updatedColors)

/-! ## Hex formatting (`src/utils/colorFormatUtils.ts`) -/

/-- A hex digit `[0-9A-Fa-f]`. -/
def isHexDigitChar (c : Char) : Bool :=
  c.isDigit || ('a' ≤ c && c ≤ 'f') || ('A' ≤ c && c ≤ 'F')

/-- Numeric value of a hex digit. -/
def hexDigitVal (c : Char) : ℕ :=
  if c.isDigit then c.toNat - '0'.toNat
  else if 'a' ≤ c && c ≤ 'f' then c.toNat - 'a'.toNat + 10
  else c.toNat - 'A'.toNat + 10

/-- `n.toString(16)` padded to two digits, for `n < 256` (the only range
`toHex` feeds it: its argument has just been clamped into `[0, 255]`).
Lowercase, via `Nat.digitChar`. -/
def toHexPair (n : ℕ) : JsString :=
  if n < 16 then ['0', Nat.digitChar n]
  else [Nat.digitChar (n / 16), Nat.digitChar (n % 16)]

/-- `toHex` (`colorFormatUtils.ts` lines 10-13): clamp, round, render as a
two-digit lowercase hex string. -/
def toHex (value : ℚ) : JsString :=
  toHexPair (clampChannel value).toNat

/-- `formatAsHex` (`colorFormatUtils.ts` lines 18-20): `"#RRGGBB"`. -/
def formatAsHex (rgb : RGB) : JsString :=
  '#' :: (toHex rgb.r ++ toHex rgb.g ++ toHex rgb.b)

/-- `hex.replace("#", "")`: JS `String.replace` with a string pattern removes
only the first occurrence. -/
def removeFirst (c : Char) : JsString → JsString
  | [] => []
  | x :: xs => if x = c then xs else x :: removeFirst c xs

/-- JS `parseInt(s, 16)`: skip whitespace, optional sign, optional `0x`/`0X`
prefix, then the maximal run of hex digits; `none` (NaN) when that run is
empty, otherwise the signed value of the run (trailing garbage ignored). -/
def jsParseIntHex (s : JsString) : Option ℤ :=
  let s1 := s.dropWhile Char.isWhitespace
  let signed : ℤ × JsString :=
    match s1 with
    | '-' :: rest => (-1, rest)
    | '+' :: rest => (1, rest)
    | _ => (1, s1)
  let s3 :=
    match signed.2 with
    | '0' :: 'x' :: rest => rest
    | '0' :: 'X' :: rest => rest
    | rest => rest
  let digits := s3.takeWhile isHexDigitChar
  if digits.isEmpty then none
  else some (signed.1 * digits.foldl (fun acc c => 16 * acc + (hexDigitVal c : ℤ)) 0)

/-- `parseHexToRgb` (`colorFormatUtils.ts` lines 119-135): strip the first
`#`, require exactly 6 remaining characters, parse the three 2-character
substrings with `parseInt(_, 16)`, fail when any is NaN. -/
def parseHexToRgb (hex : JsString) : Option RGB :=
  let cleanHex := removeFirst '#' hex
  if cleanHex.length ≠ 6 then none
  else
    match jsParseIntHex (cleanHex.take 2), jsParseIntHex ((cleanHex.drop 2).take 2),
        jsParseIntHex ((cleanHex.drop 4).take 2) with
    | some r, some g, some b => some ⟨(r : ℚ), (g : ℚ), (b : ℚ)⟩
    | _, _, _ => none

/-- Modelled from the spec: reading six hex digits as an RGB triple — `null`
unless the input is exactly six characters, all hex digits. -/
def parseSixHex (l : JsString) : Option RGB :=
  match l with
  | [c1, c2, c3, c4, c5, c6] =>
      if [c1, c2, c3, c4, c5, c6].all isHexDigitChar then
        some ⟨((16 * hexDigitVal c1 + hexDigitVal c2 : ℕ) : ℚ),
              ((16 * hexDigitVal c3 + hexDigitVal c4 : ℕ) : ℚ),
              ((16 * hexDigitVal c5 + hexDigitVal c6 : ℕ) : ℚ)⟩
      else none
  | _ => none

/-- Modelled from the spec: the `hexToRgb` that the `AddColorForm` and
`EditColorForm` components import from `src/utils/colorFormatUtils` is absent from `src/` — only its
callers and its design-document interface declaration are present (the copy of
`colorFormatUtils.ts` under `src/` carries the 6-digit-only `parseHexToRgb`
instead).  Per the spec: optional leading `#`; exactly 3 or 6 hex digits
`[0-9A-Fa-f]`; the 3-digit form duplicates each nibble before parsing;
`null` for any other length or non-hex-digit content. -/
def hexToRgb (hex : JsString) : Option RGB :=
  let clean := if hex.head? = some '#' then hex.tail else hex
  parseSixHex
    (if clean.length = 3 then clean.foldr (fun c acc => c :: c :: acc) [] else clean)

/-! ## Undo/redo (`src/utils/undoRedoUtils.ts`, part_011) -/

/-- `ActionType`. -/
inductive ActionType where
  | add : ActionType
  | edit : ActionType
  | delete : ActionType
  | reorder : ActionType
deriving DecidableEq

/-- The optional `actionData` payload of an `UndoableAction`. -/
structure ActionData where
  colorIndex : Option ℚ
  colorData : Option ColorEntry
  previousColorData : Option ColorEntry
deriving DecidableEq

/-- `UndoableAction`: full before/after snapshots plus metadata. -/
structure UndoableAction where
  type : ActionType
  timestamp : ℚ
  description : JsString
  previousState : List ColorEntry
  newState : List ColorEntry
  actionData : Option ActionData
deriving DecidableEq

/-- `UndoRedoManager` state: two stacks (arrays, pushed/popped at the end)
and the bound (constructor default 50). -/
structure UndoRedoManager where
  undoStack : List UndoableAction
  redoStack : List UndoableAction
  maxHistorySize : ℕ
deriving DecidableEq

/-- `recordAction` (part_011 lines 231-244): push onto `undoStack`, clear
`redoStack`, then drop the oldest entry (`shift()`) if the bound is
exceeded. -/
def recordAction (m : UndoRedoManager) (action : UndoableAction) : UndoRedoManager :=
  let pushed := m.undoStack ++ [action]
  let bounded := if m.maxHistorySize < pushed.length then pushed.drop 1 else pushed
  { m with undoStack := bounded, redoStack := [] }

/-- `undo` (part_011 lines 269-281): pop the last undo entry; `none` and no
state change when empty; otherwise move it to `redoStack` and return its
`previousState`. -/
def undo (m : UndoRedoManager) : Option (List ColorEntry) × UndoRedoManager :=
  match m.undoStack.getLast? with
  | none => (none, m)
  | some action =>
      (some action.previousState,
        { m with undoStack := m.undoStack.dropLast, redoStack := m.redoStack ++ [action] })

/-- `redo` (part_011 lines 286-298): pop the last redo entry; `none` and no
state change when empty; otherwise move it back to `undoStack` and return its
`newState`. -/
def redo (m : UndoRedoManager) : Option (List ColorEntry) × UndoRedoManager :=
  match m.redoStack.getLast? with
  | none => (none, m)
  | some action =>
      (some action.newState,
        { m with redoStack := m.redoStack.dropLast, undoStack := m.undoStack ++ [action] })

/-- `canUndo`: `undoStack.length > 0`. -/
def canUndo (m : UndoRedoManager) : Bool := decide (0 < m.undoStack.length)

/-- `canRedo`: `redoStack.length > 0`. -/
def canRedo (m : UndoRedoManager) : Bool := decide (0 < m.redoStack.length)

/-! ## Backups (`src/utils/backupUtils.ts`) -/

/-- `FileOperationError` from `src/utils/errorUtils.ts`. -/
structure FileOperationError where
  message : JsString
  filePath : Option JsString
deriving DecidableEq

/-- The outcomes of the file-system effects `createBackup` performs: whether
the `mkdir` fails, whether the `writeFile` fails, whether the pruning sweep's
own file operations fail, and the backup file path the timestamped name
computation produces. -/
structure BackupEnv where
  mkdirFails : Bool
  writeFails : Bool
  cleanupFails : Bool
  backupPath : JsString
deriving DecidableEq

/-- `cleanupOldBackups` (`backupUtils.ts` lines 156-175): the whole body is
inside `try`/`catch`, so a failing sweep only warns; the result records
whether it succeeded. -/
def cleanupOldBackups (env : BackupEnv) : Bool := !env.cleanupFails

/-- `createBackup` (`backupUtils.ts` lines 40-78): `mkdir`, build the
timestamped backup file (its name abstracted as `env.backupPath`), write it,
prune old backups (whose failures are swallowed inside `cleanupOldBackups`),
return the path; any `mkdir`/`write` failure is wrapped in a
`FileOperationError` and thrown. -/
def createBackup (env : BackupEnv) (colors : List ColorEntry)
    (reason : Option JsString) : Except FileOperationError JsString :=
  if env.mkdirFails ∨ env.writeFails then
    .error ⟨"Failed to create backup".toList, none⟩
  else
    let _ := cleanupOldBackups env
    .ok env.backupPath

/-- `createAutoBackup` (`backupUtils.ts` lines 180-187): delegate to
`createBackup` with the `auto-<operation>` reason; catch every failure, warn,
and return `null` — never propagate. -/
def createAutoBackup (env : BackupEnv) (colors : List ColorEntry)
    (operation : JsString) : Except FileOperationError (Option JsString) :=
  match createBackup env colors (some ("auto-".toList ++ operation)) with
  | .ok path => .ok (some path)
  | .error _ => .ok none

/-! ## Helper lemmas -/

/-- The spec's clamp formulation: `clamp(v) = round(min(255, max(0, v)))`. -/
def clampSpec (v : ℚ) : ℤ := ⌊min 255 (max 0 v) + 1/2⌋

theorem floor_zero_half : ⌊(0:ℚ) + 1/2⌋ = 0 := by
  rw [Int.floor_eq_iff] <;> norm_num

theorem floor_max_half : ⌊(255:ℚ) + 1/2⌋ = 255 := by
  rw [Int.floor_eq_iff] <;> norm_num

/-- The code's clamp order (round, then min, then max) agrees with the spec's
(max, then min, then round). -/
theorem clampChannel_eq_clampSpec (v : ℚ) : clampChannel v = clampSpec v := by
  unfold clampChannel clampSpec
  rw [jsRound_eq_floor]
  rcases lt_or_le v 0 with h0 | h0
  · have hle : ⌊v + 1/2⌋ ≤ 0 := by
      have h := Int.floor_le_floor (α := ℚ) (show v + 1/2 ≤ 0 + 1/2 by linarith)
      rwa [floor_zero_half] at h
    rw [max_eq_left h0.le, min_eq_right (show (0:ℚ) ≤ 255 by norm_num),
      min_eq_right (le_trans hle (by norm_num)), max_eq_left hle, floor_zero_half]
  · rcases le_or_lt v 255 with h255 | h255
    · have hlow : 0 ≤ ⌊v + 1/2⌋ := by
        have h := Int.floor_le_floor (α := ℚ) (show 0 + 1/2 ≤ v + 1/2 by linarith)
        rwa [floor_zero_half] at h
      have hhigh : ⌊v + 1/2⌋ ≤ 255 := by
        have h := Int.floor_le_floor (α := ℚ) (show v + 1/2 ≤ 255 + 1/2 by linarith)
        rwa [floor_max_half] at h
      rw [max_eq_right h0, min_eq_right h255, min_eq_right hhigh, max_eq_right hlow]
    · have hge : 255 ≤ ⌊v + 1/2⌋ := by
        have h := Int.floor_le_floor (α := ℚ) (show 255 + 1/2 ≤ v + 1/2 by linarith)
        rwa [floor_max_half] at h
      rw [max_eq_right h0, min_eq_left h255.le, min_eq_left hge,
        max_eq_right (show (0:ℤ) ≤ 255 by norm_num), floor_max_half]

theorem clampChannel_nonneg (v : ℚ) : 0 ≤ clampChannel v := le_max_left 0 _

theorem clampChannel_le_255 (v : ℚ) : clampChannel v ≤ 255 :=
  max_le (by norm_num) (min_le_left 255 _)

theorem clampChannel_toNat_lt (v : ℚ) : (clampChannel v).toNat < 256 := by
  have h := clampChannel_le_255 v
  omega

theorem clampChannel_toNat_cast (v : ℚ) : ((clampChannel v).toNat : ℤ) = clampChannel v :=
  Int.toNat_of_nonneg (clampChannel_nonneg v)

theorem reindexFrom_length (n : ℕ) (l : List Json) :
    (reindexFrom n l).length = l.length := by
  induction l generalizing n with
  | nil => rfl
  | cons c rest ih => simp [reindexFrom, ih]

theorem lookupField_setFields (fields : List (String × Json)) (key : String) (v : Json) :
    lookupField (setFields fields key v) key = some v := by
  induction fields with
  | nil => simp [setFields, lookupField]
  | cons kv rest ih =>
      obtain ⟨k, w⟩ := kv
      by_cases h : k = key
      · simp [setFields, lookupField, h]
      · simp [setFields, lookupField, h, ih]

theorem getField_setField (j : Json) (key : String) (v : Json) :
    getField (setField j key v) key = some v := by
  cases j <;> simp [setField, getField, lookupField_setFields, lookupField]

theorem setFields_setFields (fields : List (String × Json)) (key : String) (v w : Json) :
    setFields (setFields fields key v) key w = setFields fields key w := by
  induction fields with
  | nil => simp [setFields]
  | cons kv rest ih =>
      obtain ⟨k, u⟩ := kv
      by_cases h : k = key
      · simp [setFields, h]
      · simp [setFields, h, ih]

theorem setField_setField (j : Json) (key : String) (v w : Json) :
    setField (setField j key v) key w = setField j key w := by
  cases j <;> simp [setField, setFields_setFields, setFields]

theorem reindexFrom_getField (n : ℕ) (l : List Json) :
    ∀ i (h : i < (reindexFrom n l).length),
      getField ((reindexFrom n l).get ⟨i, h⟩) "index" = some (.num ((n + i : ℕ) : ℚ)) := by
  induction l generalizing n with
  | nil => intro i h; simp [reindexFrom] at h
  | cons c rest ih =>
      intro i h
      cases i with
      | zero => simp [reindexFrom, getField_setField]
      | succ i =>
          have h' : i < (reindexFrom (n + 1) rest).length := by
            simpa [reindexFrom, Nat.succ_lt_succ_iff] using h
          have hrec := ih (n + 1) i h'
          have harith : (n + 1) + i = n + (i + 1) := by omega
          simpa [reindexFrom, harith] using hrec

theorem reindexFrom_mask (n : ℕ) (l : List Json) :
    (reindexFrom n l).map (fun j => setField j "index" (.num 0)) =
      l.map (fun j => setField j "index" (.num 0)) := by
  induction l generalizing n with
  | nil => rfl
  | cons c rest ih => simp [reindexFrom, setField_setField, ih]

theorem reindexEntriesFrom_length (n : ℕ) (l : List ColorEntry) :
    (reindexEntriesFrom n l).length = l.length := by
  induction l generalizing n with
  | nil => rfl
  | cons c rest ih => simp [reindexEntriesFrom, ih]

theorem reindexEntriesFrom_append (n : ℕ) (l1 l2 : List ColorEntry) :
    reindexEntriesFrom n (l1 ++ l2) =
      reindexEntriesFrom n l1 ++ reindexEntriesFrom (n + l1.length) l2 := by
  induction l1 generalizing n with
  | nil => simp [reindexEntriesFrom]
  | cons c rest ih =>
      simp [reindexEntriesFrom, ih]
      have harith : n + 1 + rest.length = n + (rest.length + 1) := by omega
      rw [harith]

theorem filterOutPos_of_nonintegral {x : ℚ} (hden : x.den ≠ 1) :
    ∀ (n : ℕ) (l : List ColorEntry), filterOutPos x n l = l := by
  intro n l
  induction l generalizing n with
  | nil => rfl
  | cons c rest ih =>
      have hne : ¬ ((n : ℚ) = x) := by
        intro he
        apply hden
        rw [← he]
        exact Rat.den_natCast n
      simp [filterOutPos, hne, ih]

theorem channelCheck_iff (o : Option Json) :
    channelCheck o = true ↔ ∃ q, o = some (.num q) ∧ 0 ≤ q ∧ q ≤ 255 := by
  cases o with
  | none => simp [channelCheck]
  | some v => cases v <;> simp [channelCheck]

theorem nonnegNumCheck_iff (o : Option Json) :
    nonnegNumCheck o = true ↔ ∃ q, o = some (.num q) ∧ 0 ≤ q := by
  cases o with
  | none => simp [nonnegNumCheck]
  | some v => cases v <;> simp [nonnegNumCheck]

theorem nonemptyStrCheck_iff (o : Option Json) :
    nonemptyStrCheck o = true ↔ ∃ s, o = some (.str s) ∧ 0 < s.length := by
  cases o with
  | none => simp [nonemptyStrCheck]
  | some v => cases v <;> simp [nonemptyStrCheck]

theorem rgbFieldCheck_iff (o : Option Json) :
    rgbFieldCheck o = true ↔ ∃ v, o = some v ∧ isValidRGB v = true := by
  cases o with
  | none => simp [rgbFieldCheck]
  | some v => simp [rgbFieldCheck]

theorem isValidRGB_iff (j : Json) : isValidRGB j = true ↔
    ∃ r g b, getField j "r" = some (.num r) ∧ 0 ≤ r ∧ r ≤ 255 ∧
      getField j "g" = some (.num g) ∧ 0 ≤ g ∧ g ≤ 255 ∧
      getField j "b" = some (.num b) ∧ 0 ≤ b ∧ b ≤ 255 := by
  cases j with
  | obj fields =>
      simp only [isValidRGB, getField, Bool.and_eq_true, channelCheck_iff]
      constructor
      · rintro ⟨⟨⟨r, hr, h1, h2⟩, ⟨g, hg, h3, h4⟩⟩, ⟨b, hb, h5, h6⟩⟩
        exact ⟨r, g, b, hr, h1, h2, hg, h3, h4, hb, h5, h6⟩
      · rintro ⟨r, g, b, hr, h1, h2, hg, h3, h4, hb, h5, h6⟩
        exact ⟨⟨⟨r, hr, h1, h2⟩, ⟨g, hg, h3, h4⟩⟩, ⟨b, hb, h5, h6⟩⟩
  | null => simp [isValidRGB, getField]
  | bool b => simp [isValidRGB, getField]
  | num q => simp [isValidRGB, getField]
  | str s => simp [isValidRGB, getField]
  | arr items => simp [isValidRGB, getField]

/-! ## Claim theorems -/

/-- C10: the structural validity predicate used by `loadColors` and
`saveColors` accepts a parsed object iff it has a numeric `index ≥ 0`, a
string `name` of untrimmed length `> 0`, and numeric `r`, `g`, `b` each in
`[0, 255]`; in particular it accepts records with a whitespace-only name, a
name longer than 50 characters, and non-integer channel values. -/
theorem isValidColorEntry_characterization :
    (∀ j : Json, isValidColorEntry j = true ↔
      ∃ idx nm rgbv, getField j "index" = some (.num idx) ∧ 0 ≤ idx ∧
        getField j "name" = some (.str nm) ∧ 0 < nm.length ∧
        getField j "rgb" = some rgbv ∧
        ∃ r g b, getField rgbv "r" = some (.num r) ∧ 0 ≤ r ∧ r ≤ 255 ∧
          getField rgbv "g" = some (.num g) ∧ 0 ≤ g ∧ g ≤ 255 ∧
          getField rgbv "b" = some (.num b) ∧ 0 ≤ b ∧ b ≤ 255) ∧
    isValidColorEntry (.obj [("index", .num 0), ("name", .str "   ".toList),
      ("rgb", .obj [("r", .num 10), ("g", .num 20), ("b", .num 30)])]) = true ∧
    isValidColorEntry (.obj [("index", .num 0), ("name", .str (List.replicate 60 'a')),
      ("rgb", .obj [("r", .num 10), ("g", .num 20), ("b", .num 30)])]) = true ∧
    isValidColorEntry (.obj [("index", .num 0), ("name", .str "half".toList),
      ("rgb", .obj [("r", .num (Rat.divInt 1 2)), ("g", .num 20), ("b", .num 30)])]) = true := by
  refine ⟨?_, by decide, by decide, by decide⟩
  intro j
  cases j with
  | obj fields =>
      simp only [isValidColorEntry, getField, Bool.and_eq_true, nonnegNumCheck_iff,
        nonemptyStrCheck_iff, rgbFieldCheck_iff, isValidRGB_iff]
      constructor
      · rintro ⟨⟨⟨idx, hidx, h0⟩, ⟨nm, hnm, hlen⟩⟩, ⟨rv, hrv, hrgb⟩⟩
        exact ⟨idx, nm, rv, hidx, h0, hnm, hlen, hrv, hrgb⟩
      · rintro ⟨idx, nm, rv, hidx, h0, hnm, hlen, hrv, hrgb⟩
        exact ⟨⟨⟨idx, hidx, h0⟩, ⟨nm, hnm, hlen⟩⟩, ⟨rv, hrv, hrgb⟩⟩
  | null => simp [isValidColorEntry, getField]
  | bool b => simp [isValidColorEntry, getField]
  | num q => simp [isValidColorEntry, getField]
  | str s => simp [isValidColorEntry, getField]
  | arr items => simp [isValidColorEntry, getField]

/-- C8: `createAutoBackup` never propagates an error: whatever the failure
pattern of the underlying effects (`mkdir`, `writeFile`, or the pruning sweep
— the result does not even mention `cleanupFails`), it returns `.ok`, with
`none` (JS `null`) exactly when the wrapped `createBackup` failed. -/
theorem createAutoBackup_never_propagates (env : BackupEnv) (colors : List ColorEntry)
    (operation : JsString) :
    createAutoBackup env colors operation =
      .ok (if env.mkdirFails ∨ env.writeFails then none else some env.backupPath) := by
  unfold createAutoBackup createBackup
  by_cases h : env.mkdirFails ∨ env.writeFails
  · simp [h]
  · simp [h]

/-- C2: `loadColors` is total (it is a function, never an exception), and for
every degraded file state — missing file, unreadable file, non-JSON content,
JSON that is not an array, or an array with no structurally valid entry — it
returns the 5 built-in defaults; in the not-an-array / no-valid-entry cases
the existing file is not overwritten. -/
theorem loadColors_self_healing (fs : FileState)
    (h : fs = .missing ∨ fs = .unreadable ∨ fs = .notJson ∨
      (∃ v, fs = .json v ∧ ∀ items, v ≠ .arr items) ∨
      (∃ items, fs = .json (.arr items) ∧ items.filter isValidColorEntry = [])) :
    (loadColors fs).1 = DEFAULT_COLORS_JSON ∧
    DEFAULT_COLORS_JSON.length = 5 ∧
    (fs ≠ .missing → (loadColors fs).2 = fs) := by
  rcases h with h | h | h | ⟨v, hv, hnotarr⟩ | ⟨items, hv, hempty⟩
  · subst h
    exact ⟨rfl, rfl, fun hne => absurd rfl hne⟩
  · subst h
    exact ⟨rfl, rfl, fun _ => rfl⟩
  · subst h
    exact ⟨rfl, rfl, fun _ => rfl⟩
  · subst hv
    cases v with
    | arr items => exact absurd rfl (hnotarr items)
    | null => exact ⟨rfl, rfl, fun _ => rfl⟩
    | bool b => exact ⟨rfl, rfl, fun _ => rfl⟩
    | num q => exact ⟨rfl, rfl, fun _ => rfl⟩
    | str s => exact ⟨rfl, rfl, fun _ => rfl⟩
    | obj fields => exact ⟨rfl, rfl, fun _ => rfl⟩
  · subst hv
    refine ⟨?_, rfl, fun _ => ?_⟩
    · simp [loadColors, ensureColorFile, hempty]
    · simp [loadColors, ensureColorFile, hempty]

/-- Witness for C2 at two concrete degraded states: a JSON number (not an
array) and an array with no valid entry. -/
theorem loadColors_self_healing_witness :
    (loadColors (.json (.num 3))).1 = DEFAULT_COLORS_JSON ∧
    (loadColors (.json (.num 3))).2 = .json (.num 3) ∧
    (loadColors (.json (.arr [.str "x".toList]))).1 = DEFAULT_COLORS_JSON := by
  have h1 := loadColors_self_healing (.json (.num 3))
    (Or.inr (Or.inr (Or.inr (Or.inl ⟨.num 3, rfl, fun items heq => Json.noConfusion heq⟩))))
  have h2 := loadColors_self_healing (.json (.arr [.str "x".toList]))
    (Or.inr (Or.inr (Or.inr (Or.inr ⟨[.str "x".toList], rfl, rfl⟩))))
  exact ⟨h1.1, h1.2.2 (fun heq => FileState.noConfusion heq), h2.1⟩

/-- C1: a successful `saveColors` persists exactly the structurally valid
entries of its input, truncated to the first `MAX_COLORS`, and in the
persisted (and cached) collection every record's `index` field equals its
zero-based array position — regardless of the `index` values the input
carried (the third conjunct masks the `index` field on both sides and states
that nothing else changed). -/
theorem saveColors_valid_truncate_reindex (input : List Json) :
    (saveColors input).length = min (input.filter isValidColorEntry).length MAX_COLORS ∧
    (∀ i (h : i < (saveColors input).length),
      getField ((saveColors input).get ⟨i, h⟩) "index" = some (.num ((i : ℕ) : ℚ))) ∧
    (saveColors input).map (fun j => setField j "index" (.num 0)) =
      ((input.filter isValidColorEntry).take MAX_COLORS).map
        (fun j => setField j "index" (.num 0)) := by
  refine ⟨?_, ?_, ?_⟩
  · rw [saveColors, reindexFrom_length, List.length_take]
    exact Nat.min_comm _ _
  · intro i h
    have hrec := reindexFrom_getField 0 ((input.filter isValidColorEntry).take MAX_COLORS) i
      (by simpa [saveColors] using h)
    simpa [saveColors] using hrec
  · rw [saveColors]
    exact reindexFrom_mask 0 _

/-- A save input exercising C1: one valid entry carrying the wrong `index` 7,
and one invalid entry. -/
def sampleSaveInput : List Json :=
  [.obj [("index", .num 7), ("name", .str "A".toList),
     ("rgb", .obj [("r", .num 1), ("g", .num 2), ("b", .num 3)])],
   .num 5]

/-- Witness for C1: the invalid entry is dropped and the surviving record's
`index` is rewritten from 7 to its position 0. -/
theorem saveColors_valid_truncate_reindex_witness :
    (saveColors sampleSaveInput).length = 1 ∧
    getField ((saveColors sampleSaveInput).get ⟨0, by decide⟩) "index" =
      some (.num ((0 : ℕ) : ℚ)) := by
  have h := saveColors_valid_truncate_reindex sampleSaveInput
  exact ⟨h.1.trans (by decide), h.2.1 0 (by decide)⟩

/-- A new sanitized entry with a nonnegative index and a non-empty name
passes the structural validity check. -/
theorem isValidEntry_sanitized (idx : ℚ) (nm : JsString) (rgb : RGB)
    (hidx : 0 ≤ idx) (hnm : nm ≠ []) :
    isValidEntry ⟨idx, nm, sanitizeRgbValues rgb⟩ = true := by
  simp only [isValidEntry, sanitizeRgbValues, Bool.and_eq_true, decide_eq_true_eq]
  refine ⟨⟨hidx, List.length_pos.mpr hnm⟩,
    ⟨⟨?_, ?_⟩, ⟨?_, ?_⟩⟩, ⟨?_, ?_⟩⟩
  · exact_mod_cast clampChannel_nonneg rgb.r
  · exact_mod_cast clampChannel_le_255 rgb.r
  · exact_mod_cast clampChannel_nonneg rgb.g
  · exact_mod_cast clampChannel_le_255 rgb.g
  · exact_mod_cast clampChannel_nonneg rgb.b
  · exact_mod_cast clampChannel_le_255 rgb.b

/-- C4: with the collection at capacity (15 records), `addColor` with a
non-duplicate name fails with `MaxColorsReached` and performs no save — the
stored collection is unchanged; with a name whose trimmed form matches an
existing name case-insensitively it fails with `DuplicateName` instead, also
leaving the store unchanged. -/
theorem addColor_capacity_and_duplicate (store : List ColorEntry) (name : JsString)
    (rgb : RGB) (hlen : store.length = MAX_COLORS) :
    ((store.any fun c => jsToLower c.name = jsToLower (jsTrim name)) = false →
      addColor store name rgb = .error (.maxColorsReached MAX_COLORS) ∧
      addColorStore store name rgb = store) ∧
    ((store.any fun c => jsToLower c.name = jsToLower (jsTrim name)) = true →
      addColor store name rgb = .error (.duplicateColor (jsTrim name)) ∧
      addColorStore store name rgb = store) := by
  constructor
  · intro hdup
    have he : addColor store name rgb = .error (.maxColorsReached MAX_COLORS) := by
      simp [addColor, hdup, hlen]
    exact ⟨he, by unfold addColorStore; rw [he]⟩
  · intro hdup
    have he : addColor store name rgb = .error (.duplicateColor (jsTrim name)) := by
      simp [addColor, hdup]
    exact ⟨he, by unfold addColorStore; rw [he]⟩

/-- A 15-record collection (at `MAX_COLORS`) with distinct names. -/
def sampleFullStore : List ColorEntry :=
  [⟨0, "a".toList, ⟨0, 0, 0⟩⟩, ⟨1, "b".toList, ⟨0, 0, 0⟩⟩, ⟨2, "c".toList, ⟨0, 0, 0⟩⟩,
   ⟨3, "d".toList, ⟨0, 0, 0⟩⟩, ⟨4, "e".toList, ⟨0, 0, 0⟩⟩, ⟨5, "f".toList, ⟨0, 0, 0⟩⟩,
   ⟨6, "g".toList, ⟨0, 0, 0⟩⟩, ⟨7, "h".toList, ⟨0, 0, 0⟩⟩, ⟨8, "i".toList, ⟨0, 0, 0⟩⟩,
   ⟨9, "j".toList, ⟨0, 0, 0⟩⟩, ⟨10, "k".toList, ⟨0, 0, 0⟩⟩, ⟨11, "l".toList, ⟨0, 0, 0⟩⟩,
   ⟨12, "m".toList, ⟨0, 0, 0⟩⟩, ⟨13, "n".toList, ⟨0, 0, 0⟩⟩, ⟨14, "o".toList, ⟨0, 0, 0⟩⟩]

/-- Witness for C4: a 16th add fails with `MaxColorsReached` and the store is
untouched; adding `" A "` (trims to a case-insensitive duplicate of `"a"`)
fails with `DuplicateName`. -/
theorem addColor_capacity_and_duplicate_witness :
    sampleFullStore.length = MAX_COLORS ∧
    addColor sampleFullStore "New Color".toList ⟨1, 2, 3⟩ =
      .error (.maxColorsReached MAX_COLORS) ∧
    addColorStore sampleFullStore "New Color".toList ⟨1, 2, 3⟩ = sampleFullStore ∧
    addColor sampleFullStore " A ".toList ⟨1, 2, 3⟩ =
      .error (.duplicateColor (jsTrim " A ".toList)) := by
  have h1 := addColor_capacity_and_duplicate sampleFullStore "New Color".toList
    ⟨1, 2, 3⟩ (by decide)
  have h2 := addColor_capacity_and_duplicate sampleFullStore " A ".toList
    ⟨1, 2, 3⟩ (by decide)
  exact ⟨by decide, (h1.1 (by decide)).1, (h1.1 (by decide)).2, (h2.2 (by decide)).1⟩

/-- Saving an all-valid collection extended below capacity with a valid entry
whose `index` already equals its position keeps every entry, re-indexing the
prefix and leaving the new entry as appended. -/
theorem saveEntries_append_new (store : List ColorEntry) (newColor : ColorEntry)
    (hvalid : store.all isValidEntry = true) (hlen : store.length < MAX_COLORS)
    (hnew : isValidEntry newColor = true)
    (hidx : newColor.index = (store.length : ℚ)) :
    saveEntries (store ++ [newColor]) = reindexEntriesFrom 0 store ++ [newColor] := by
  have hfilter : (store ++ [newColor]).filter isValidEntry = store ++ [newColor] := by
    rw [List.filter_append]
    rw [List.filter_eq_self.mpr (fun a ha => (List.all_eq_true.mp hvalid) a ha)]
    simp [hnew]
  have htake : (store ++ [newColor]).take MAX_COLORS = store ++ [newColor] := by
    apply List.take_of_length_le
    simp
    omega
  rw [saveEntries, hfilter, htake, reindexEntriesFrom_append]
  obtain ⟨idx, nm, rv⟩ := newColor
  simp only [ColorEntry.mk.injEq] at hidx ⊢
  simp [reindexEntriesFrom, hidx]

/-- C6: `addColor` clamps and trims before storing: the record it appends (and
which `saveColors` then persists, at array position = previous length, hence
with `index` = previous length) carries the trimmed name, the sanitized
channels (equal to the spec's `clamp(v) = round(min(255, max(0, v)))`), and
`index = currentColors.length`. -/
theorem addColor_clamps_trims_indexes (store : List ColorEntry) (name : JsString)
    (rgb : RGB)
    (hvalid : store.all isValidEntry = true)
    (hlen : store.length < MAX_COLORS)
    (hname : jsTrim name ≠ [])
    (hdup : (store.any fun c => jsToLower c.name = jsToLower (jsTrim name)) = false) :
    addColor store name rgb =
      .ok (store ++ [⟨(store.length : ℚ), jsTrim name, sanitizeRgbValues rgb⟩],
        reindexEntriesFrom 0 store ++
          [⟨(store.length : ℚ), jsTrim name, sanitizeRgbValues rgb⟩]) ∧
    sanitizeRgbValues rgb =
      ⟨(clampSpec rgb.r : ℚ), (clampSpec rgb.g : ℚ), (clampSpec rgb.b : ℚ)⟩ := by
  constructor
  · have hnotfull : ¬ (MAX_COLORS ≤ store.length) := by omega
    have hnew : isValidEntry ⟨(store.length : ℚ), jsTrim name, sanitizeRgbValues rgb⟩ = true :=
      isValidEntry_sanitized _ _ _ (Nat.cast_nonneg _) hname
    have hsave := saveEntries_append_new store
      ⟨(store.length : ℚ), jsTrim name, sanitizeRgbValues rgb⟩ hvalid hlen hnew rfl
    simp [addColor, hdup, hnotfull, hsave]
  · simp [sanitizeRgbValues, clampChannel_eq_clampSpec]

/-- Witness for C6 at the spec's concrete scenario: adding `"Sky"` with
`{r:10, g:300, b:-5}` to the 5 defaults stores `{r:10, g:255, b:0}`, name
`"Sky"`, `index` 5. -/
theorem addColor_clamps_trims_indexes_witness :
    DEFAULT_COLORS.all isValidEntry = true ∧
    sanitizeRgbValues ⟨10, 300, -5⟩ = ⟨10, 255, 0⟩ ∧
    addColor DEFAULT_COLORS "Sky".toList ⟨10, 300, -5⟩ =
      .ok (DEFAULT_COLORS ++
          [⟨(DEFAULT_COLORS.length : ℚ), jsTrim "Sky".toList, sanitizeRgbValues ⟨10, 300, -5⟩⟩],
        reindexEntriesFrom 0 DEFAULT_COLORS ++
          [⟨(DEFAULT_COLORS.length : ℚ), jsTrim "Sky".toList, sanitizeRgbValues ⟨10, 300, -5⟩⟩]) := by
  have h := addColor_clamps_trims_indexes DEFAULT_COLORS "Sky".toList ⟨10, 300, -5⟩
    (by decide) (by decide) (by decide) (by decide)
  exact ⟨by decide, by decide, h.1⟩

/-- C9: the bounds check of `deleteColor` accepts non-integer indices: for a
non-integer `x` with `0 < x < n`, no `IndexOutOfRange` error is raised, the
integer-position filter removes nothing, and the re-indexed collection of the
same length `n` is saved and returned. -/
theorem deleteColor_nonintegral_index (store : List ColorEntry) (x : ℚ)
    (hn : 2 ≤ store.length) (hx0 : 0 < x) (hxn : x < (store.length : ℚ))
    (hden : x.den ≠ 1) :
    deleteColor store x =
      .ok (reindexEntriesFrom 0 store, saveEntries (reindexEntriesFrom 0 store)) ∧
    (reindexEntriesFrom 0 store).length = store.length := by
  constructor
  · have hcond : ¬ (x < 0 ∨ (store.length : ℚ) ≤ x) :=
      not_or.mpr ⟨not_lt.mpr hx0.le, not_le.mpr hxn⟩
    unfold deleteColor
    rw [if_neg hcond, filterOutPos_of_nonintegral hden]
  · exact reindexEntriesFrom_length 0 store

/-- A 2-record collection. -/
def samplePairStore : List ColorEntry :=
  [⟨0, "a".toList, ⟨0, 0, 0⟩⟩, ⟨1, "b".toList, ⟨0, 0, 0⟩⟩]

/-- Witness for C9: deleting index `1/2` from a 2-record collection raises no
error and returns a collection still of length 2. -/
theorem deleteColor_nonintegral_index_witness :
    2 ≤ samplePairStore.length ∧
    deleteColor samplePairStore (Rat.divInt 1 2) =
      .ok (reindexEntriesFrom 0 samplePairStore,
        saveEntries (reindexEntriesFrom 0 samplePairStore)) ∧
    (reindexEntriesFrom 0 samplePairStore).length = 2 := by
  have h := deleteColor_nonintegral_index samplePairStore (Rat.divInt 1 2)
    (by decide) (by decide) (by decide) (by decide)
  exact ⟨by decide, h.1, h.2.trans (by decide)⟩

/-- C7: `recordAction` pushes onto the undo stack and clears the redo stack
entirely, so immediately afterwards `canRedo` is false and `redo` is a no-op
returning nothing; with the bound 50, the stack length stays at most 50 and
on overflow the oldest entry is dropped. -/
theorem recordAction_clears_redo_bounded (m : UndoRedoManager) (action : UndoableAction)
    (hmax : m.maxHistorySize = 50) (hlen : m.undoStack.length ≤ 50) :
    (recordAction m action).redoStack = [] ∧
    canRedo (recordAction m action) = false ∧
    redo (recordAction m action) = (none, recordAction m action) ∧
    (recordAction m action).undoStack.getLast? = some action ∧
    (recordAction m action).undoStack.length ≤ 50 ∧
    (m.undoStack.length < 50 →
      (recordAction m action).undoStack = m.undoStack ++ [action]) ∧
    (m.undoStack.length = 50 →
      (recordAction m action).undoStack = m.undoStack.drop 1 ++ [action]) := by
  have hredo : (recordAction m action).redoStack = [] := rfl
  have hcanRedo : canRedo (recordAction m action) = false := rfl
  have hredoOp : redo (recordAction m action) = (none, recordAction m action) := rfl
  by_cases hfull : m.undoStack.length = 50
  · obtain ⟨c, rest, hcons⟩ : ∃ c rest, m.undoStack = c :: rest := by
      cases hstack : m.undoStack with
      | nil => rw [hstack] at hfull; simp at hfull
      | cons c rest => exact ⟨c, rest, rfl⟩
    have hstack : (recordAction m action).undoStack = m.undoStack.drop 1 ++ [action] := by
      simp only [recordAction, hmax, hcons]
      rw [if_pos (by simp [← hcons, hfull])]
      simp
    refine ⟨hredo, hcanRedo, hredoOp, ?_, ?_, ?_, fun _ => hstack⟩
    · rw [hstack]
      simp
    · rw [hstack]
      have hrest : rest.length = 49 := by
        rw [hcons] at hfull
        simpa using hfull
      simp [hcons, hrest]
    · intro hlt
      omega
  · have hstack : (recordAction m action).undoStack = m.undoStack ++ [action] := by
      simp only [recordAction, hmax]
      rw [if_neg (by simp; omega)]
    refine ⟨hredo, hcanRedo, hredoOp, ?_, ?_, fun _ => hstack, ?_⟩
    · rw [hstack]
      simp
    · rw [hstack]
      simp
      omega
    · intro heq
      exact absurd heq hfull

/-- Witness for C7: recording over a non-empty redo stack empties it and makes
`redo` a no-op. -/
theorem recordAction_clears_redo_bounded_witness :
    canRedo (recordAction
      ⟨[], [⟨.add, 0, [], [], [], none⟩], 50⟩ ⟨.edit, 1, [], [], [], none⟩) = false ∧
    redo (recordAction ⟨[], [⟨.add, 0, [], [], [], none⟩], 50⟩ ⟨.edit, 1, [], [], [], none⟩) =
      (none, recordAction ⟨[], [⟨.add, 0, [], [], [], none⟩], 50⟩ ⟨.edit, 1, [], [], [], none⟩) := by
  have h := recordAction_clears_redo_bounded
    ⟨[], [⟨.add, 0, [], [], [], none⟩], 50⟩ ⟨.edit, 1, [], [], [], none⟩ rfl (by decide)
  exact ⟨h.2.1, h.2.2.1⟩

theorem toHexPair_length (n : ℕ) : (toHexPair n).length = 2 := by
  unfold toHexPair
  split <;> rfl

set_option maxRecDepth 40000 in
/-- Parsing a two-digit hex rendering recovers the value, for every byte. -/
theorem jsParseIntHex_toHexPair : ∀ n : ℕ, n < 256 → jsParseIntHex (toHexPair n) = some (n : ℤ) := by
  decide

/-- C5: for every rgb triple of (possibly out-of-range, possibly fractional)
channels, parsing the formatted 6-digit hex string recovers exactly the
clamped, rounded integer channels: `parseHexToRgb (formatAsHex rgb) =
clamp(rgb)` with `clamp(v) = round(min(255, max(0, v)))`. -/
theorem parseHexToRgb_formatAsHex_roundtrip (rgb : RGB) :
    parseHexToRgb (formatAsHex rgb) =
      some ⟨((clampSpec rgb.r : ℤ) : ℚ), ((clampSpec rgb.g : ℤ) : ℚ),
        ((clampSpec rgb.b : ℤ) : ℚ)⟩ := by
  have hr : (toHex rgb.r).length = 2 := toHexPair_length _
  have hg : (toHex rgb.g).length = 2 := toHexPair_length _
  have hb : (toHex rgb.b).length = 2 := toHexPair_length _
  unfold parseHexToRgb formatAsHex
  have hrm : removeFirst '#' ('#' :: (toHex rgb.r ++ toHex rgb.g ++ toHex rgb.b)) =
      toHex rgb.r ++ toHex rgb.g ++ toHex rgb.b := by
    simp [removeFirst]
  rw [hrm]
  have hlen6 : (toHex rgb.r ++ toHex rgb.g ++ toHex rgb.b).length = 6 := by
    simp [List.length_append, hr, hg, hb]
  rw [if_neg (by rw [hlen6]; omega)]
  have h1 : (toHex rgb.r ++ toHex rgb.g ++ toHex rgb.b).take 2 = toHex rgb.r := by
    rw [List.append_assoc]
    exact List.take_left' hr
  have h2 : ((toHex rgb.r ++ toHex rgb.g ++ toHex rgb.b).drop 2).take 2 = toHex rgb.g := by
    rw [List.append_assoc, List.drop_left' hr]
    exact List.take_left' hg
  have h3 : ((toHex rgb.r ++ toHex rgb.g ++ toHex rgb.b).drop 4).take 2 = toHex rgb.b := by
    rw [List.drop_left' (by simp [List.length_append, hr, hg])]
    exact List.take_of_length_le (by rw [hb])
  rw [h1, h2, h3]
  unfold toHex
  rw [jsParseIntHex_toHexPair _ (clampChannel_toNat_lt rgb.r),
    jsParseIntHex_toHexPair _ (clampChannel_toNat_lt rgb.g),
    jsParseIntHex_toHexPair _ (clampChannel_toNat_lt rgb.b)]
  simp only [clampChannel_toNat_cast]
  simp only [clampChannel_eq_clampSpec]

theorem parseSixHex_of_length_ne (l : JsString) (h : l.length ≠ 6) :
    parseSixHex l = none := by
  rcases l with _ | ⟨a, _ | ⟨b, _ | ⟨c, _ | ⟨d, _ | ⟨e, _ | ⟨f, _ | ⟨g, t⟩⟩⟩⟩⟩⟩⟩ <;>
    first
    | rfl
    | exact absurd rfl h

theorem parseSixHex_of_nonhex (l : JsString) (h : l.all isHexDigitChar = false) :
    parseSixHex l = none := by
  rcases l with _ | ⟨a, _ | ⟨b, _ | ⟨c, _ | ⟨d, _ | ⟨e, _ | ⟨f, _ | ⟨g, t⟩⟩⟩⟩⟩⟩⟩ <;>
    first
    | rfl
    | simp [parseSixHex, h]

/-- C3: `hexToRgb` (modelled from the spec — the implementation is absent from
`src/`, see `hexToRgb`) accepts an optional leading `#` and exactly 3 or 6 hex
digits, expanding the 3-digit form by duplicating each nibble, and returns
`null` for every other length and for non-hex-digit content; in particular
`hexToRgb "#F5A" = {r:255, g:85, b:170}`. -/
theorem hexToRgb_spec_behavior :
    (∀ cs : JsString, cs.head? ≠ some '#' → hexToRgb ('#' :: cs) = hexToRgb cs) ∧
    (∀ cs : JsString, cs.head? ≠ some '#' → cs.length ≠ 3 → cs.length ≠ 6 →
      hexToRgb cs = none) ∧
    (∀ cs : JsString, cs.head? ≠ some '#' → cs.all isHexDigitChar = false →
      hexToRgb cs = none) ∧
    (∀ c1 c2 c3 : Char, hexToRgb [c1, c2, c3] = hexToRgb [c1, c1, c2, c2, c3, c3]) ∧
    hexToRgb ('#' :: "F5A".toList) = some ⟨255, 85, 170⟩ := by
  refine ⟨?_, ?_, ?_, ?_, by decide⟩
  · intro cs hhead
    simp [hexToRgb, hhead]
  · intro cs hhead h3 h6
    rw [hexToRgb]
    simp only [hhead, if_false]
    rw [if_neg h3]
    exact parseSixHex_of_length_ne cs h6
  · intro cs hhead hhex
    rw [hexToRgb]
    simp only [hhead, if_false]
    by_cases h3 : cs.length = 3
    · rw [if_pos h3]
      apply parseSixHex_of_nonhex
      obtain ⟨a, b, c, rfl⟩ : ∃ a b c, cs = [a, b, c] := by
        rcases cs with _ | ⟨a, _ | ⟨b, _ | ⟨c, _ | ⟨d, t⟩⟩⟩⟩ <;> simp at h3
        exact ⟨a, b, c, rfl⟩
      simp only [List.all_cons, List.all_nil, Bool.and_true] at hhex ⊢
      rcases Bool.and_eq_false_iff.mp hhex with h | h
      · simp [h]
      · rcases Bool.and_eq_false_iff.mp h with h' | h' <;> simp [h']
    · rw [if_neg h3]
      exact parseSixHex_of_nonhex cs hhex
  · intro c1 c2 c3
    by_cases h1 : c1 = '#'
    · subst h1
      rfl
    · have hh1 : ([c1, c2, c3] : JsString).head? ≠ some '#' := by
        simp [h1]
      have hh2 : ([c1, c1, c2, c2, c3, c3] : JsString).head? ≠ some '#' := by
        simp [h1]
      rw [hexToRgb, hexToRgb]
      simp only [hh1, hh2, if_false]
      rfl

/-- Witness for C3: the optional-`#` equation at `"abc"`, a 4-digit input
rejected for its length, and a 2-character non-hex input rejected. -/
theorem hexToRgb_spec_behavior_witness :
    hexToRgb ('#' :: "abc".toList) = hexToRgb "abc".toList ∧
    hexToRgb "abcd".toList = none ∧
    hexToRgb "zz".toList = none := by
  have h := hexToRgb_spec_behavior
  exact ⟨h.1 "abc".toList (by decide),
    h.2.1 "abcd".toList (by decide) (by decide) (by decide),
    h.2.2.1 "zz".toList (by decide) (by decide)⟩

end MyColors
